import Mathlib

/-!
Verification of the fuzzy land-pricing model (`land_pricing.py`, `main.py`).

The repository configures a Mamdani fuzzy-inference system: four linguistic
variables (land area, distance to the avenue, distance to the beach, price),
generalized-bell membership functions derived from breakpoint constants, five
rules, and centroid defuzzification.  The domain constants, the universe
grids, the membership-function parameters and the five rule trees are
embedded here directly from the source.  The inference engine itself
(generalized bell evaluation, Zadeh min/max, Mamdani clipping/aggregation and
centroid defuzzification) is provided by an external fuzzy-control library
that is not part of the repository's sources, so those parts are modelled
from the specification text.  All real arithmetic is modelled exactly over ℚ.
-/

namespace LandPricing

/-- Modelled from the spec: the generalized bell membership function
`μ(x) = 1 / (1 + |(x - center)/width|^(2*slope))` (§3, §4.1); its
implementation lives in the external fuzzy library, not under `src/`.
The slope is a natural number (the model always uses slope 3). -/
def gbellmf (w : ℚ) (s : ℕ) (c : ℚ) (x : ℚ) : ℚ :=
  1 / (1 + |(x - c) / w| ^ (2 * s))

namespace AreaConstants

/-- Area breakpoint P00 (m²), from `AreaConstants`. -/
def P00 : ℚ := 180

/-- Area breakpoint P20. -/
def P20 : ℚ := 250

/-- Area breakpoint P40. -/
def P40 : ℚ := 300

/-- Area breakpoint P60. -/
def P60 : ℚ := 320

/-- Area breakpoint P80. -/
def P80 : ℚ := 360

/-- Area breakpoint P100. -/
def P100 : ℚ := 455

/-- Area universe minimum. -/
def MIN : ℚ := 100

/-- Area universe maximum (exclusive under `np.arange`). -/
def MAX : ℚ := 500

/-- Area universe step. -/
def STEP : ℚ := 1

/-- Bell widths of the five area categories, from `AreaConstants.BELL_WIDTHS`. -/
def BELL_WIDTHS : List ℚ :=
  [(P20 - P00) / 2, (P40 - P20) / 2, (P60 - P40) / 2, (P80 - P60) / 2, (P100 - P80) / 2]

/-- Bell centers of the five area categories, from `AreaConstants.BELL_CENTERS`. -/
def BELL_CENTERS : List ℚ :=
  [P00 + BELL_WIDTHS.getD 0 0, P20 + BELL_WIDTHS.getD 1 0, P40 + BELL_WIDTHS.getD 2 0,
   P60 + BELL_WIDTHS.getD 3 0, P80 + BELL_WIDTHS.getD 4 0]

end AreaConstants

namespace PriceConstants

/-- Price breakpoint P00 (R$), from `PriceConstants`. -/
def P00 : ℚ := 42400

/-- Price breakpoint P20. -/
def P20 : ℚ := 132000

/-- Price breakpoint P40. -/
def P40 : ℚ := 160000

/-- Price breakpoint P60. -/
def P60 : ℚ := 180000

/-- Price breakpoint P80. -/
def P80 : ℚ := 238600

/-- Price breakpoint P100. -/
def P100 : ℚ := 400000

/-- Price universe minimum. -/
def MIN : ℚ := 20000

/-- Price universe maximum (exclusive under `np.arange`). -/
def MAX : ℚ := 500000

/-- Price universe step. -/
def STEP : ℚ := 1000

/-- Bell widths of the five price categories, from `PriceConstants.BELL_WIDTHS`. -/
def BELL_WIDTHS : List ℚ :=
  [(P20 - P00) / 2, (P40 - P20) / 2, (P60 - P40) / 2, (P80 - P60) / 2, (P100 - P80) / 2]

/-- Bell centers of the five price categories, from `PriceConstants.BELL_CENTERS`. -/
def BELL_CENTERS : List ℚ :=
  [P00 + BELL_WIDTHS.getD 0 0, P20 + BELL_WIDTHS.getD 1 0, P40 + BELL_WIDTHS.getD 2 0,
   P60 + BELL_WIDTHS.getD 3 0, P80 + BELL_WIDTHS.getD 4 0]

end PriceConstants

namespace DistAveConstants

/-- Avenue-distance breakpoint P00 (km), from `DistAveConstants`. -/
def P00 : ℚ := 0.78

/-- Avenue-distance breakpoint P33. -/
def P33 : ℚ := 1.80

/-- Avenue-distance breakpoint P66. -/
def P66 : ℚ := 1.91

/-- Avenue-distance breakpoint P100. -/
def P100 : ℚ := 5.35

/-- Average avenue distance. -/
def AVERAGE : ℚ := 2.30

/-- Avenue-distance universe minimum. -/
def MIN : ℚ := 0.60

/-- Avenue-distance universe maximum (exclusive under `np.arange`). -/
def MAX : ℚ := 5.50

/-- Avenue-distance universe step. -/
def STEP : ℚ := 0.05

/-- Bell widths of the three avenue-distance categories. -/
def BELL_WIDTHS : List ℚ := [(P33 - P00) / 2, (P66 - P33) / 2, (P100 - P66) / 2]

/-- Bell centers of the three avenue-distance categories. -/
def BELL_CENTERS : List ℚ :=
  [P00 + BELL_WIDTHS.getD 0 0, P33 + BELL_WIDTHS.getD 1 0, P66 + BELL_WIDTHS.getD 2 0]

end DistAveConstants

namespace DistBchConstants

/-- Beach-distance breakpoint P00 (km), from `DistBchConstants`. -/
def P00 : ℚ := 0.30

/-- Beach-distance breakpoint P33. -/
def P33 : ℚ := 1.46

/-- Beach-distance breakpoint P66. -/
def P66 : ℚ := 1.92

/-- Beach-distance breakpoint P100. -/
def P100 : ℚ := 6.90

/-- Average beach distance. -/
def AVERAGE : ℚ := 1.98

/-- Beach-distance universe minimum. -/
def MIN : ℚ := 0.20

/-- Beach-distance universe maximum (exclusive under `np.arange`). -/
def MAX : ℚ := 7.00

/-- Beach-distance universe step. -/
def STEP : ℚ := 0.05

/-- Bell widths of the three beach-distance categories. -/
def BELL_WIDTHS : List ℚ := [(P33 - P00) / 2, (P66 - P33) / 2, (P100 - P66) / 2]

/-- Bell centers of the three beach-distance categories. -/
def BELL_CENTERS : List ℚ :=
  [P00 + BELL_WIDTHS.getD 0 0, P33 + BELL_WIDTHS.getD 1 0, P66 + BELL_WIDTHS.getD 2 0]

end DistBchConstants

/-- The bell slope used for every membership function, from `LandPricing.BELL_SLOPE`. -/
def BELL_SLOPE : ℕ := 3

/-- The discretization grid of a universe: `np.arange(min, max, step)`, i.e. the
points `min + step * i` for `0 ≤ i < ⌈(max - min)/step⌉` (`max` itself excluded). -/
def arange (mn mx st : ℚ) : List ℚ :=
  (List.range (⌈(mx - mn) / st⌉.toNat)).map (fun i : ℕ => mn + st * (i : ℚ))

/-- The area universe grid, from `create_antecedents`. -/
def areaUniverse : List ℚ := arange AreaConstants.MIN AreaConstants.MAX AreaConstants.STEP

/-- The avenue-distance universe grid, from `create_antecedents`. -/
def distAveUniverse : List ℚ :=
  arange DistAveConstants.MIN DistAveConstants.MAX DistAveConstants.STEP

/-- The beach-distance universe grid, from `create_antecedents`. -/
def distBchUniverse : List ℚ :=
  arange DistBchConstants.MIN DistBchConstants.MAX DistBchConstants.STEP

/-- The price universe grid, from `create_consequent`. -/
def priceUniverse : List ℚ := arange PriceConstants.MIN PriceConstants.MAX PriceConstants.STEP

/-- Linguistic categories of the `area` antecedent. -/
inductive AreaCat where
  | very_small
  | small
  | medium
  | large
  | very_large
deriving DecidableEq

/-- Linguistic categories of the two distance antecedents. -/
inductive DistCat where
  | close
  | moderate
  | far
deriving DecidableEq

/-- Linguistic categories of the `price` consequent. -/
inductive PriceCat where
  | very_low
  | low
  | medium
  | high
  | very_high
deriving DecidableEq

/-- All price categories, in the order they are defined in `create_consequent`. -/
def PriceCat.all : List PriceCat := [.very_low, .low, .medium, .high, .very_high]

/-- Bell width of an area category (`AreaConstants.BELL_WIDTHS[i]` in
`create_antecedents`). -/
def areaWidth : AreaCat → ℚ
  | .very_small => AreaConstants.BELL_WIDTHS.getD 0 0
  | .small => AreaConstants.BELL_WIDTHS.getD 1 0
  | .medium => AreaConstants.BELL_WIDTHS.getD 2 0
  | .large => AreaConstants.BELL_WIDTHS.getD 3 0
  | .very_large => AreaConstants.BELL_WIDTHS.getD 4 0

/-- Bell center of an area category (`AreaConstants.BELL_CENTERS[i]` in
`create_antecedents`). -/
def areaCenter : AreaCat → ℚ
  | .very_small => AreaConstants.BELL_CENTERS.getD 0 0
  | .small => AreaConstants.BELL_CENTERS.getD 1 0
  | .medium => AreaConstants.BELL_CENTERS.getD 2 0
  | .large => AreaConstants.BELL_CENTERS.getD 3 0
  | .very_large => AreaConstants.BELL_CENTERS.getD 4 0

/-- Membership degree of a value in an area category. -/
def areaDegree (c : AreaCat) (x : ℚ) : ℚ := gbellmf (areaWidth c) BELL_SLOPE (areaCenter c) x

/-- Bell width of an avenue-distance category. -/
def distAveWidth : DistCat → ℚ
  | .close => DistAveConstants.BELL_WIDTHS.getD 0 0
  | .moderate => DistAveConstants.BELL_WIDTHS.getD 1 0
  | .far => DistAveConstants.BELL_WIDTHS.getD 2 0

/-- Bell center of an avenue-distance category. -/
def distAveCenter : DistCat → ℚ
  | .close => DistAveConstants.BELL_CENTERS.getD 0 0
  | .moderate => DistAveConstants.BELL_CENTERS.getD 1 0
  | .far => DistAveConstants.BELL_CENTERS.getD 2 0

/-- Membership degree of a value in an avenue-distance category. -/
def distAveDegree (c : DistCat) (x : ℚ) : ℚ :=
  gbellmf (distAveWidth c) BELL_SLOPE (distAveCenter c) x

/-- Bell width of a beach-distance category. -/
def distBchWidth : DistCat → ℚ
  | .close => DistBchConstants.BELL_WIDTHS.getD 0 0
  | .moderate => DistBchConstants.BELL_WIDTHS.getD 1 0
  | .far => DistBchConstants.BELL_WIDTHS.getD 2 0

/-- Bell center of a beach-distance category. -/
def distBchCenter : DistCat → ℚ
  | .close => DistBchConstants.BELL_CENTERS.getD 0 0
  | .moderate => DistBchConstants.BELL_CENTERS.getD 1 0
  | .far => DistBchConstants.BELL_CENTERS.getD 2 0

/-- Membership degree of a value in a beach-distance category. -/
def distBchDegree (c : DistCat) (x : ℚ) : ℚ :=
  gbellmf (distBchWidth c) BELL_SLOPE (distBchCenter c) x

/-- Bell width of a price category. -/
def priceWidth : PriceCat → ℚ
  | .very_low => PriceConstants.BELL_WIDTHS.getD 0 0
  | .low => PriceConstants.BELL_WIDTHS.getD 1 0
  | .medium => PriceConstants.BELL_WIDTHS.getD 2 0
  | .high => PriceConstants.BELL_WIDTHS.getD 3 0
  | .very_high => PriceConstants.BELL_WIDTHS.getD 4 0

/-- Bell center of a price category. -/
def priceCenter : PriceCat → ℚ
  | .very_low => PriceConstants.BELL_CENTERS.getD 0 0
  | .low => PriceConstants.BELL_CENTERS.getD 1 0
  | .medium => PriceConstants.BELL_CENTERS.getD 2 0
  | .high => PriceConstants.BELL_CENTERS.getD 3 0
  | .very_high => PriceConstants.BELL_CENTERS.getD 4 0

/-- Membership degree of a value in a price category. -/
def priceDegree (c : PriceCat) (x : ℚ) : ℚ :=
  gbellmf (priceWidth c) BELL_SLOPE (priceCenter c) x

/-- A query assignment: concrete values for the three input variables
(set on the simulation in `_run`). -/
structure Assignment where
  area : ℚ
  dist_ave : ℚ
  dist_bch : ℚ
deriving DecidableEq

/-- A fuzzy term reference "variable X is category Y", the leaves of the five
rule antecedents in `get_rules`. -/
inductive FTerm where
  | area (c : AreaCat)
  | dist_ave (c : DistCat)
  | dist_bch (c : DistCat)
deriving DecidableEq

/-- Membership degree of a term under an assignment (spec §4.3
`Term(var, cat).fire(a) = var.degree_of(cat, a[var.name])`). -/
def termDegree (a : Assignment) : FTerm → ℚ
  | .area c => areaDegree c a.area
  | .dist_ave c => distAveDegree c a.dist_ave
  | .dist_bch c => distBchDegree c a.dist_bch

/-- A rule antecedent expression tree: terms combined with fuzzy AND / OR
(the `&` / `|` expressions in `get_rules`). -/
inductive FuzzyExpr (α : Type) where
  | term (t : α)
  | and (l r : FuzzyExpr α)
  | or (l r : FuzzyExpr α)
deriving DecidableEq

/-- Modelled from the spec: firing strength of an expression tree under a
term valuation — Zadeh semantics, AND is min and OR is max (§4.3); the
operator implementation lives in the external fuzzy library. -/
def FuzzyExpr.fire (f : α → ℚ) : FuzzyExpr α → ℚ
  | .term t => f t
  | .and l r => min (l.fire f) (r.fire f)
  | .or l r => max (l.fire f) (r.fire f)

/-- A fuzzy rule: an antecedent expression tree and a concluded price category. -/
structure Rule where
  antecedent : FuzzyExpr FTerm
  consequent : PriceCat
deriving DecidableEq

/-- The five rules of `get_rules`, with Python operator precedence (`&` binds
tighter than `|`, both associate to the left). -/
def get_rules : List Rule :=
  [⟨.and (.term (.area .very_small)) (.or (.term (.dist_ave .far)) (.term (.dist_bch .far))),
    .very_low⟩,
   ⟨.or (.term (.area .small)) (.term (.dist_ave .moderate)), .low⟩,
   ⟨.or (.or (.term (.area .medium)) (.term (.dist_ave .close))) (.term (.dist_bch .close)),
    .medium⟩,
   ⟨.or (.term (.area .large)) (.and (.term (.dist_ave .close)) (.term (.dist_bch .close))),
    .high⟩,
   ⟨.and (.term (.area .very_large)) (.and (.term (.dist_ave .close)) (.term (.dist_bch .close))),
    .very_high⟩]

/-- Modelled from the spec: the implied strength of a price category is the
max (never the sum) of the firing strengths of the rules concluding it
(§4.4 step 2); categories concluded by no rule get strength 0. -/
def impliedStrength (a : Assignment) (c : PriceCat) : ℚ :=
  (((get_rules.filter (fun r => r.consequent == c)).map
     (fun r => r.antecedent.fire (termDegree a))).foldr max 0)

/-- Modelled from the spec: Mamdani aggregation — each concluded category's
membership curve is clipped (min) at its implied strength and the clipped
curves are unioned pointwise by max (§4.4 steps 3–4). -/
def aggregate (a : Assignment) (x : ℚ) : ℚ :=
  ((PriceCat.all.map (fun c => min (priceDegree c x) (impliedStrength a c))).foldr max 0)

/-- Modelled from the spec: discrete centroid of a sampled membership function
over a grid, `Σ x*μ(x) / Σ μ(x)` (§4.5). -/
def centroid (grid : List ℚ) (μ : ℚ → ℚ) : ℚ :=
  (grid.map (fun x => x * μ x)).sum / (grid.map μ).sum

/-- The error taxonomy of the inference core (spec §7). -/
inductive InferenceError where
  | invalidParameter
  | unknownCategory
  | missingInput
  | degenerateAggregate
deriving DecidableEq

/-- Modelled from the spec: centroid defuzzification of the aggregate output
set over the price universe; fails with `DegenerateAggregate` when the
aggregate sums to zero (§4.5, §7). -/
def defuzzify (a : Assignment) : Except InferenceError ℚ :=
  if (priceUniverse.map (aggregate a)).sum = 0 then .error .degenerateAggregate
  else .ok (centroid priceUniverse (aggregate a))

/-- Modelled from the spec: membership-function construction must reject
width = 0 or slope = 0 with `InvalidParameter` at model-build time (§4.1, §7);
this validation belongs to the model-building layer absent from `src/`. -/
def mkMembershipFunction (w : ℚ) (s : ℕ) (c : ℚ) : Except InferenceError (ℚ → ℚ) :=
  if w = 0 ∨ s = 0 then .error .invalidParameter else .ok (gbellmf w s c)

/-- Modelled from the spec: the shared simulation object of `__init__`, which
stores the previous query's inputs and outputs (§9 "singleton inference
object holding both the model and the last simulation's input/output"). -/
structure ControlSystemSimulation where
  input : Assignment
  output : Option (Except InferenceError ℚ)

/-- Modelled from the spec: `compute()` runs inference and defuzzification on
the currently stored inputs and stores the output. -/
def ControlSystemSimulation.compute (s : ControlSystemSimulation) : ControlSystemSimulation :=
  { s with output := some (defuzzify s.input) }

/-- `_run`: store the three inputs on the shared simulation, compute, and read
the price output. -/
def run (sim : ControlSystemSimulation) (area dist_ave dist_bch : ℚ) :
    (Except InferenceError ℚ) × ControlSystemSimulation :=
  let sim1 : ControlSystemSimulation := { sim with input := ⟨area, dist_ave, dist_bch⟩ }
  let sim2 := sim1.compute
  ((sim2.output).getD (.error .missingInput), sim2)

/-- The end-to-end scenario query of the spec: area 455 m², avenue distance
0.78 km, beach distance 0.30 km. -/
def a455 : Assignment := { area := 455, dist_ave := 0.78, dist_bch := 0.30 }

/-- The crisp price of the scenario query. -/
def r455 : ℚ := centroid priceUniverse (aggregate a455)

/-!
A kernel-reducible exact-rational evaluator.  The arithmetic operations of
`ℚ` installed by the library are deliberately irreducible, so concrete
evaluation inside proofs goes through the following thin wrappers around the
reducible smart constructors `mkRat` / `Rat.divInt`; each wrapper is proved
equal to the corresponding ordinary operation.
-/

/-- Reducible rational addition. -/
def qadd (a b : ℚ) : ℚ := mkRat (a.num * b.den + b.num * a.den) (a.den * b.den)

/-- Reducible rational multiplication. -/
def qmul (a b : ℚ) : ℚ := mkRat (a.num * b.num) (a.den * b.den)

/-- Reducible rational subtraction. -/
def qsub (a b : ℚ) : ℚ := mkRat (a.num * b.den - b.num * a.den) (a.den * b.den)

/-- Reducible rational division. -/
def qdiv (a b : ℚ) : ℚ := Rat.divInt (a.num * b.den) (a.den * b.num)

/-- Reducible rational absolute value. -/
def qabs (a : ℚ) : ℚ := mkRat a.num.natAbs a.den

/-- Reducible rational one. -/
def qone : ℚ := mkRat 1 1

/-- Reducible rational zero. -/
def qzero : ℚ := mkRat 0 1

/-- Reducible rational power. -/
def qpow (a : ℚ) : ℕ → ℚ
  | 0 => qone
  | n + 1 => qmul a (qpow a n)

/-- Reducible rational minimum. -/
def qmin (a b : ℚ) : ℚ := if Rat.blt b a then b else a

/-- Reducible rational maximum. -/
def qmax (a b : ℚ) : ℚ := if Rat.blt a b then b else a

/-- Sum adjacent pairs of a list (one level of balanced summation). -/
def pairup : List ℚ → List ℚ
  | [] => []
  | [a] => [a]
  | a :: b :: t => qadd a b :: pairup t

/-- Balanced summation of a list of rationals: `n` pairing rounds, then a
final fold.  Balanced so that concrete kernel evaluation stays shallow. -/
def qsum : ℕ → List ℚ → ℚ
  | _, [] => qzero
  | _, [a] => a
  | 0, a :: b :: t => (a :: b :: t).foldr qadd qzero
  | n + 1, a :: b :: t => qsum n (pairup (a :: b :: t))

theorem rat_mul_den (q : ℚ) : q * (q.den : ℚ) = (q.num : ℚ) := by
  have h : (q.den : ℚ) ≠ 0 := by positivity
  nth_rewrite 1 [← Rat.num_div_den q]
  exact div_mul_cancel₀ _ h

theorem qadd_eq (a b : ℚ) : qadd a b = a + b := by
  rw [qadd, Rat.mkRat_eq_div]
  push_cast
  rw [div_eq_iff (by positivity)]
  linear_combination (-(b.den : ℚ)) * rat_mul_den a - (a.den : ℚ) * rat_mul_den b

theorem qmul_eq (a b : ℚ) : qmul a b = a * b := by
  rw [qmul, Rat.mkRat_eq_div]
  push_cast
  rw [div_eq_iff (by positivity)]
  linear_combination (-(b * (b.den : ℚ))) * rat_mul_den a - (a.num : ℚ) * rat_mul_den b

theorem qsub_eq (a b : ℚ) : qsub a b = a - b := by
  rw [qsub, Rat.mkRat_eq_div]
  push_cast
  rw [div_eq_iff (by positivity)]
  linear_combination (-(b.den : ℚ)) * rat_mul_den a + (a.den : ℚ) * rat_mul_den b

theorem qdiv_eq (a b : ℚ) : qdiv a b = a / b := by
  rw [qdiv, Rat.divInt_eq_div]
  push_cast
  rcases eq_or_ne b 0 with hb | hb
  · subst hb
    simp
  · have hbn : (b.num : ℚ) ≠ 0 := by
      exact_mod_cast Rat.num_ne_zero.mpr hb
    have had : (a.den : ℚ) ≠ 0 := by positivity
    rw [div_eq_div_iff (mul_ne_zero had hbn) hb]
    linear_combination (-(b * (b.den : ℚ))) * rat_mul_den a + (a * (a.den : ℚ)) * rat_mul_den b

theorem qabs_eq (a : ℚ) : qabs a = |a| := by
  rw [qabs, Rat.mkRat_eq_div]
  conv_rhs => rw [← Rat.num_div_den a]
  rw [abs_div]
  congr 1
  · rw [Int.cast_natAbs]
    push_cast
    ring
  · rw [abs_of_pos (by positivity)]

theorem qone_eq : qone = 1 := by
  rw [qone, Rat.mkRat_eq_div]
  norm_num

theorem qzero_eq : qzero = 0 := by
  rw [qzero, Rat.mkRat_eq_div]
  norm_num

theorem qpow_eq (a : ℚ) (n : ℕ) : qpow a n = a ^ n := by
  induction n with
  | zero => simp [qpow, qone_eq]
  | succ n ih => rw [qpow, qmul_eq, ih, pow_succ, mul_comm]

theorem qmin_eq (a b : ℚ) : qmin a b = min a b := by
  rw [qmin, min_def]
  by_cases h : Rat.blt b a = true
  · have hba : b < a := h
    rw [if_pos h, if_neg (not_le.mpr hba)]
  · have hab : a ≤ b := not_lt.mp (fun hc => h hc)
    rw [if_neg h, if_pos hab]

theorem qmax_eq (a b : ℚ) : qmax a b = max a b := by
  rw [qmax, max_def]
  by_cases h : Rat.blt a b = true
  · have hab : a < b := h
    rw [if_pos h, if_pos hab.le]
  · have hba : ¬ a < b := fun hc => h hc
    rw [if_neg h]
    rcases le_or_lt a b with hab | hab2
    · rw [if_pos hab]
      exact le_antisymm hab (not_lt.mp hba)
    · rw [if_neg (not_le.mpr hab2)]

theorem pairup_sum : ∀ l : List ℚ, (pairup l).sum = l.sum
  | [] => rfl
  | [a] => rfl
  | a :: b :: t => by
    rw [pairup]
    simp only [List.sum_cons]
    rw [pairup_sum t, qadd_eq]
    ring

theorem foldr_qadd_eq_sum (l : List ℚ) : l.foldr qadd qzero = l.sum := by
  induction l with
  | nil => simp [qzero_eq]
  | cons a t ih => simp [List.sum_cons, qadd_eq, ih]

theorem qsum_eq : ∀ (n : ℕ) (l : List ℚ), qsum n l = l.sum
  | _, [] => by simp [qsum, qzero_eq]
  | _, [a] => by simp [qsum]
  | 0, a :: b :: t => by rw [qsum]; exact foldr_qadd_eq_sum _
  | n + 1, a :: b :: t => by rw [qsum, qsum_eq n, pairup_sum]

/-! General properties of the membership functions and the inference chain. -/

theorem gbellmf_pos (w : ℚ) (s : ℕ) (c x : ℚ) : 0 < gbellmf w s c x := by
  unfold gbellmf
  positivity

theorem gbellmf_le_one (w : ℚ) (s : ℕ) (c x : ℚ) : gbellmf w s c x ≤ 1 := by
  unfold gbellmf
  rw [div_le_one (by positivity)]
  nlinarith [pow_nonneg (abs_nonneg ((x - c) / w)) (2 * s)]

theorem gbellmf_symm (w : ℚ) (s : ℕ) (c d : ℚ) :
    gbellmf w s c (c + d) = gbellmf w s c (c - d) := by
  unfold gbellmf
  rw [show c + d - c = d by ring, show c - d - c = -d by ring, neg_div, abs_neg]

theorem gbellmf_center (w : ℚ) (s : ℕ) (c : ℚ) (hs : s ≠ 0) : gbellmf w s c c = 1 := by
  unfold gbellmf
  rw [sub_self, zero_div, abs_zero, zero_pow (by omega), add_zero, div_one]

theorem termDegree_pos (a : Assignment) (t : FTerm) : 0 < termDegree a t := by
  cases t <;> exact gbellmf_pos ..

theorem termDegree_le_one (a : Assignment) (t : FTerm) : termDegree a t ≤ 1 := by
  cases t <;> exact gbellmf_le_one ..

theorem fire_pos {α : Type} {f : α → ℚ} (hf : ∀ t, 0 < f t) :
    ∀ e : FuzzyExpr α, 0 < e.fire f
  | .term t => hf t
  | .and l r => lt_min (fire_pos hf l) (fire_pos hf r)
  | .or l r => lt_of_lt_of_le (fire_pos hf l) (le_max_left ..)

theorem fire_le_one {α : Type} {f : α → ℚ} (hf : ∀ t, f t ≤ 1) :
    ∀ e : FuzzyExpr α, e.fire f ≤ 1
  | .term t => hf t
  | .and l r => le_trans (min_le_left ..) (fire_le_one hf l)
  | .or l r => max_le (fire_le_one hf l) (fire_le_one hf r)

theorem foldr_max_base (l : List ℚ) (b : ℚ) : b ≤ l.foldr max b := by
  induction l with
  | nil => exact le_refl b
  | cons x t ih => exact le_trans ih (le_max_right ..)

theorem le_foldr_max (b : ℚ) : ∀ {l : List ℚ} {y : ℚ}, y ∈ l → y ≤ l.foldr max b
  | [], y, h => by cases h
  | x :: t, y, h => by
    rcases List.mem_cons.mp h with rfl | hm
    · exact le_max_left ..
    · exact le_trans (le_foldr_max b hm) (le_max_right ..)

theorem foldr_max_le {m : ℚ} : ∀ {l : List ℚ} {b : ℚ},
    b ≤ m → (∀ y ∈ l, y ≤ m) → l.foldr max b ≤ m
  | [], b, hb, _ => hb
  | x :: t, b, hb, h => by
    refine max_le (h x (List.mem_cons_self ..)) (foldr_max_le hb ?_)
    exact fun y hy => h y (List.mem_cons_of_mem _ hy)

theorem foldr_max_mem : ∀ {l : List ℚ} {b : ℚ},
    l ≠ [] → (∀ y ∈ l, b ≤ y) → l.foldr max b ∈ l
  | [], _, hne, _ => absurd rfl hne
  | [x], b, _, hb => by
    have h1 : List.foldr max b [x] = max x b := rfl
    rw [h1, max_eq_left (hb x (List.mem_cons_self x []))]
    exact List.mem_cons_self x []
  | x :: y :: t, b, _, hb => by
    have hrec : (y :: t).foldr max b ∈ y :: t :=
      foldr_max_mem (List.cons_ne_nil y t) (fun z hz => hb z (List.mem_cons_of_mem _ hz))
    have h1 : List.foldr max b (x :: y :: t) = max x ((y :: t).foldr max b) := rfl
    rw [h1]
    rcases max_choice x ((y :: t).foldr max b) with h | h
    · rw [h]
      exact List.mem_cons_self x (y :: t)
    · rw [h]
      exact List.mem_cons_of_mem _ hrec

theorem impliedStrength_nonneg (a : Assignment) (c : PriceCat) : 0 ≤ impliedStrength a c :=
  foldr_max_base _ 0

theorem impliedStrength_le_one (a : Assignment) (c : PriceCat) : impliedStrength a c ≤ 1 := by
  refine foldr_max_le zero_le_one fun y hy => ?_
  rcases List.mem_map.mp hy with ⟨r, _, rfl⟩
  exact fire_le_one (termDegree_le_one a) r.antecedent

theorem rules_filter_very_low :
    get_rules.filter (fun r => r.consequent == PriceCat.very_low) =
      [get_rules.get ⟨0, by decide⟩] := by decide

theorem rules_filter_low :
    get_rules.filter (fun r => r.consequent == PriceCat.low) =
      [get_rules.get ⟨1, by decide⟩] := by decide

theorem rules_filter_medium :
    get_rules.filter (fun r => r.consequent == PriceCat.medium) =
      [get_rules.get ⟨2, by decide⟩] := by decide

theorem rules_filter_high :
    get_rules.filter (fun r => r.consequent == PriceCat.high) =
      [get_rules.get ⟨3, by decide⟩] := by decide

theorem rules_filter_very_high :
    get_rules.filter (fun r => r.consequent == PriceCat.very_high) =
      [get_rules.get ⟨4, by decide⟩] := by decide

theorem implied_very_low_eq (a : Assignment) : impliedStrength a PriceCat.very_low =
    max ((get_rules.get ⟨0, by decide⟩).antecedent.fire (termDegree a)) 0 := rfl

theorem implied_low_eq (a : Assignment) : impliedStrength a PriceCat.low =
    max ((get_rules.get ⟨1, by decide⟩).antecedent.fire (termDegree a)) 0 := rfl

theorem implied_medium_eq (a : Assignment) : impliedStrength a PriceCat.medium =
    max ((get_rules.get ⟨2, by decide⟩).antecedent.fire (termDegree a)) 0 := rfl

theorem implied_high_eq (a : Assignment) : impliedStrength a PriceCat.high =
    max ((get_rules.get ⟨3, by decide⟩).antecedent.fire (termDegree a)) 0 := rfl

theorem implied_very_high_eq (a : Assignment) : impliedStrength a PriceCat.very_high =
    max ((get_rules.get ⟨4, by decide⟩).antecedent.fire (termDegree a)) 0 := rfl

theorem impliedStrength_pos (a : Assignment) (c : PriceCat) : 0 < impliedStrength a c := by
  have hfire : ∀ r : Rule, 0 < r.antecedent.fire (termDegree a) :=
    fun r => fire_pos (termDegree_pos a) r.antecedent
  cases c
  case very_low => rw [implied_very_low_eq]; exact lt_of_lt_of_le (hfire _) (le_max_left _ _)
  case low => rw [implied_low_eq]; exact lt_of_lt_of_le (hfire _) (le_max_left _ _)
  case medium => rw [implied_medium_eq]; exact lt_of_lt_of_le (hfire _) (le_max_left _ _)
  case high => rw [implied_high_eq]; exact lt_of_lt_of_le (hfire _) (le_max_left _ _)
  case very_high => rw [implied_very_high_eq]; exact lt_of_lt_of_le (hfire _) (le_max_left _ _)

theorem aggregate_nonneg (a : Assignment) (x : ℚ) : 0 ≤ aggregate a x :=
  foldr_max_base _ 0

theorem aggregate_le_one (a : Assignment) (x : ℚ) : aggregate a x ≤ 1 := by
  refine foldr_max_le zero_le_one fun y hy => ?_
  rcases List.mem_map.mp hy with ⟨c, _, rfl⟩
  exact le_trans (min_le_left ..) (gbellmf_le_one ..)

theorem aggregate_pos (a : Assignment) (x : ℚ) : 0 < aggregate a x := by
  have hmem : min (priceDegree .very_high x) (impliedStrength a .very_high) ∈
      PriceCat.all.map (fun c => min (priceDegree c x) (impliedStrength a c)) :=
    List.mem_map.mpr ⟨.very_high, by simp [PriceCat.all], rfl⟩
  exact lt_of_lt_of_le (lt_min (gbellmf_pos ..) (impliedStrength_pos a _))
    (le_foldr_max 0 hmem)

theorem priceUniverse_eq :
    priceUniverse = (List.range 480).map
      (fun i : ℕ => PriceConstants.MIN + PriceConstants.STEP * (i : ℚ)) := by
  unfold priceUniverse arange
  congr 1
  norm_num [PriceConstants.MIN, PriceConstants.MAX, PriceConstants.STEP]
  rfl

theorem areaUniverse_eq :
    areaUniverse = (List.range 400).map
      (fun i : ℕ => AreaConstants.MIN + AreaConstants.STEP * (i : ℚ)) := by
  unfold areaUniverse arange
  congr 1
  norm_num [AreaConstants.MIN, AreaConstants.MAX, AreaConstants.STEP]
  rfl

theorem distAveUniverse_eq :
    distAveUniverse = (List.range 98).map
      (fun i : ℕ => DistAveConstants.MIN + DistAveConstants.STEP * (i : ℚ)) := by
  unfold distAveUniverse arange
  congr 1
  norm_num [DistAveConstants.MIN, DistAveConstants.MAX, DistAveConstants.STEP]
  rfl

theorem distBchUniverse_eq :
    distBchUniverse = (List.range 136).map
      (fun i : ℕ => DistBchConstants.MIN + DistBchConstants.STEP * (i : ℚ)) := by
  unfold distBchUniverse arange
  congr 1
  norm_num [DistBchConstants.MIN, DistBchConstants.MAX, DistBchConstants.STEP]
  rfl

theorem priceUniverse_ne_nil : priceUniverse ≠ [] := by
  rw [priceUniverse_eq]
  intro h
  have h1 := congrArg List.length h
  simp at h1

theorem mem_priceUniverse_bounds {x : ℚ} (h : x ∈ priceUniverse) :
    PriceConstants.MIN ≤ x ∧ x ≤ PriceConstants.MAX - PriceConstants.STEP := by
  rw [priceUniverse_eq] at h
  rcases List.mem_map.mp h with ⟨i, hi, rfl⟩
  rw [List.mem_range] at hi
  have hi2 : (i : ℚ) ≤ 479 := by exact_mod_cast Nat.le_of_lt_succ hi
  have hi0 : (0 : ℚ) ≤ (i : ℚ) := by positivity
  constructor
  · norm_num [PriceConstants.MIN, PriceConstants.STEP]
  · norm_num [PriceConstants.MIN, PriceConstants.MAX, PriceConstants.STEP]
    linarith

theorem sum_aggregate_pos (a : Assignment) : 0 < (priceUniverse.map (aggregate a)).sum := by
  refine List.sum_pos _ (fun y hy => ?_) ?_
  · rcases List.mem_map.mp hy with ⟨x, _, rfl⟩
    exact aggregate_pos a x
  · simp [priceUniverse_ne_nil]

theorem defuzzify_ok (a : Assignment) :
    defuzzify a = .ok (centroid priceUniverse (aggregate a)) := by
  unfold defuzzify
  rw [if_neg (ne_of_gt (sum_aggregate_pos a))]

/-- A symmetric discretization grid: `2*n + 1` points spaced `st` apart and
centered on `c`, a "wide-enough universe" in the sense of the spec's centroid
property (wide enough that no tail of the bell is truncated asymmetrically). -/
def symmetricUniverse (c st : ℚ) (n : ℕ) : List ℚ :=
  (List.range (2 * n + 1)).map (fun i : ℕ => c + ((i : ℚ) - (n : ℚ)) * st)

theorem symmetric_sum_cancel {μ : ℚ → ℚ} {c st : ℚ} {n : ℕ}
    (hsym : ∀ d : ℚ, μ (c + d) = μ (c - d)) :
    ∑ i ∈ Finset.range (2 * n + 1),
      ((i : ℚ) - (n : ℚ)) * st * μ (c + ((i : ℚ) - (n : ℚ)) * st) = 0 := by
  have hrefl := Finset.sum_range_reflect
    (fun i : ℕ => ((i : ℚ) - (n : ℚ)) * st * μ (c + ((i : ℚ) - (n : ℚ)) * st)) (2 * n + 1)
  have hpair : ∀ j ∈ Finset.range (2 * n + 1),
      (((2 * n + 1 - 1 - j : ℕ) : ℚ) - (n : ℚ)) * st *
          μ (c + (((2 * n + 1 - 1 - j : ℕ) : ℚ) - (n : ℚ)) * st) =
        -(((j : ℚ) - (n : ℚ)) * st * μ (c + ((j : ℚ) - (n : ℚ)) * st)) := by
    intro j hj
    rw [Finset.mem_range] at hj
    have hle : j ≤ 2 * n := by omega
    have hnat : 2 * n + 1 - 1 - j = 2 * n - j := by omega
    have hcast : ((2 * n - j : ℕ) : ℚ) = 2 * (n : ℚ) - (j : ℚ) := by
      rw [Nat.cast_sub hle]
      push_cast
      ring
    rw [hnat, hcast]
    have harg : c + (2 * (n : ℚ) - (j : ℚ) - (n : ℚ)) * st =
        c - (((j : ℚ) - (n : ℚ)) * st) := by ring
    rw [harg, ← hsym (((j : ℚ) - (n : ℚ)) * st)]
    ring
  rw [Finset.sum_congr rfl hpair, Finset.sum_neg_distrib] at hrefl
  linarith

theorem centroid_symmetric {μ : ℚ → ℚ} {c st : ℚ} {n : ℕ}
    (hsym : ∀ d : ℚ, μ (c + d) = μ (c - d))
    (hden : ((symmetricUniverse c st n).map μ).sum ≠ 0) :
    centroid (symmetricUniverse c st n) μ = c := by
  have hS : ((symmetricUniverse c st n).map μ).sum =
      ∑ i ∈ Finset.range (2 * n + 1), μ (c + ((i : ℚ) - (n : ℚ)) * st) := by
    unfold symmetricUniverse
    rw [List.map_map]
    rfl
  have hT : ((symmetricUniverse c st n).map (fun x => x * μ x)).sum =
      ∑ i ∈ Finset.range (2 * n + 1),
        (c + ((i : ℚ) - (n : ℚ)) * st) * μ (c + ((i : ℚ) - (n : ℚ)) * st) := by
    unfold symmetricUniverse
    rw [List.map_map]
    rfl
  have hTc : ∑ i ∈ Finset.range (2 * n + 1),
      (c + ((i : ℚ) - (n : ℚ)) * st) * μ (c + ((i : ℚ) - (n : ℚ)) * st) =
      c * ∑ i ∈ Finset.range (2 * n + 1), μ (c + ((i : ℚ) - (n : ℚ)) * st) := by
    have hsplit : ∀ i ∈ Finset.range (2 * n + 1),
        (c + ((i : ℚ) - (n : ℚ)) * st) * μ (c + ((i : ℚ) - (n : ℚ)) * st) =
          ((i : ℚ) - (n : ℚ)) * st * μ (c + ((i : ℚ) - (n : ℚ)) * st) +
          c * μ (c + ((i : ℚ) - (n : ℚ)) * st) := fun i _ => by ring
    rw [Finset.sum_congr rfl hsplit, Finset.sum_add_distrib, symmetric_sum_cancel hsym,
      zero_add, ← Finset.mul_sum]
  unfold centroid
  rw [hS, hT, hTc, mul_div_assoc, div_self (by rw [← hS]; exact hden), mul_one]

/-! Exact evaluation of the end-to-end scenario query `a455`. -/

theorem gbellmf_eval (w c x : ℚ) : gbellmf w 3 c x = 1 / (1 + ((x - c) / w) ^ 6) := by
  rw [gbellmf, show 2 * 3 = 6 from rfl, (by decide : Even 6).pow_abs]

theorem rule5_fire_half :
    (get_rules.get ⟨4, by decide⟩).antecedent.fire (termDegree a455) = 1 / 2 := by
  have h : (get_rules.get ⟨4, by decide⟩).antecedent =
      FuzzyExpr.and (.term (.area .very_large))
        (.and (.term (.dist_ave .close)) (.term (.dist_bch .close))) := rfl
  rw [h]
  norm_num [FuzzyExpr.fire, termDegree, a455, areaDegree, distAveDegree, distBchDegree,
    areaWidth, areaCenter, distAveWidth, distAveCenter, distBchWidth, distBchCenter,
    AreaConstants.BELL_WIDTHS, AreaConstants.BELL_CENTERS, AreaConstants.P80,
    AreaConstants.P100, DistAveConstants.BELL_WIDTHS, DistAveConstants.BELL_CENTERS,
    DistAveConstants.P00, DistAveConstants.P33, DistBchConstants.BELL_WIDTHS,
    DistBchConstants.BELL_CENTERS, DistBchConstants.P00, DistBchConstants.P33,
    gbellmf_eval, BELL_SLOPE, min_def]

theorem strength455_very_low : impliedStrength a455 .very_low = 117649 / 12230708113 := by
  rw [implied_very_low_eq]
  have h : (get_rules.get ⟨0, by decide⟩).antecedent =
      FuzzyExpr.and (.term (.area .very_small))
        (.or (.term (.dist_ave .far)) (.term (.dist_bch .far))) := rfl
  rw [h]
  norm_num [FuzzyExpr.fire, termDegree, a455, areaDegree, distAveDegree, distBchDegree,
    areaWidth, areaCenter, distAveWidth, distAveCenter, distBchWidth, distBchCenter,
    AreaConstants.BELL_WIDTHS, AreaConstants.BELL_CENTERS, AreaConstants.P00,
    AreaConstants.P20, DistAveConstants.BELL_WIDTHS, DistAveConstants.BELL_CENTERS,
    DistAveConstants.P66, DistAveConstants.P100, DistBchConstants.BELL_WIDTHS,
    DistBchConstants.BELL_CENTERS, DistBchConstants.P66, DistBchConstants.P100,
    gbellmf_eval, BELL_SLOPE, min_def, max_def]

theorem strength455_low : impliedStrength a455 .low = 15625 / 2176797961 := by
  rw [implied_low_eq]
  have h : (get_rules.get ⟨1, by decide⟩).antecedent =
      FuzzyExpr.or (.term (.area .small)) (.term (.dist_ave .moderate)) := rfl
  rw [h]
  norm_num [FuzzyExpr.fire, termDegree, a455, areaDegree, distAveDegree,
    areaWidth, areaCenter, distAveWidth, distAveCenter,
    AreaConstants.BELL_WIDTHS, AreaConstants.BELL_CENTERS, AreaConstants.P20,
    AreaConstants.P40, DistAveConstants.BELL_WIDTHS, DistAveConstants.BELL_CENTERS,
    DistAveConstants.P33, DistAveConstants.P66,
    gbellmf_eval, BELL_SLOPE, max_def]

theorem strength455_medium : impliedStrength a455 .medium = 1 / 2 := by
  rw [implied_medium_eq]
  have h : (get_rules.get ⟨2, by decide⟩).antecedent =
      FuzzyExpr.or (.or (.term (.area .medium)) (.term (.dist_ave .close)))
        (.term (.dist_bch .close)) := rfl
  rw [h]
  norm_num [FuzzyExpr.fire, termDegree, a455, areaDegree, distAveDegree, distBchDegree,
    areaWidth, areaCenter, distAveWidth, distAveCenter, distBchWidth, distBchCenter,
    AreaConstants.BELL_WIDTHS, AreaConstants.BELL_CENTERS, AreaConstants.P40,
    AreaConstants.P60, DistAveConstants.BELL_WIDTHS, DistAveConstants.BELL_CENTERS,
    DistAveConstants.P00, DistAveConstants.P33, DistBchConstants.BELL_WIDTHS,
    DistBchConstants.BELL_CENTERS, DistBchConstants.P00, DistBchConstants.P33,
    gbellmf_eval, BELL_SLOPE, max_def]

theorem strength455_high : impliedStrength a455 .high = 1 / 2 := by
  rw [implied_high_eq]
  have h : (get_rules.get ⟨3, by decide⟩).antecedent =
      FuzzyExpr.or (.term (.area .large))
        (.and (.term (.dist_ave .close)) (.term (.dist_bch .close))) := rfl
  rw [h]
  norm_num [FuzzyExpr.fire, termDegree, a455, areaDegree, distAveDegree, distBchDegree,
    areaWidth, areaCenter, distAveWidth, distAveCenter, distBchWidth, distBchCenter,
    AreaConstants.BELL_WIDTHS, AreaConstants.BELL_CENTERS, AreaConstants.P60,
    AreaConstants.P80, DistAveConstants.BELL_WIDTHS, DistAveConstants.BELL_CENTERS,
    DistAveConstants.P00, DistAveConstants.P33, DistBchConstants.BELL_WIDTHS,
    DistBchConstants.BELL_CENTERS, DistBchConstants.P00, DistBchConstants.P33,
    gbellmf_eval, BELL_SLOPE, min_def, max_def]

theorem strength455_very_high : impliedStrength a455 .very_high = 1 / 2 := by
  rw [implied_very_high_eq, rule5_fire_half]
  norm_num

theorem aggregate_eq_explicit (a : Assignment) (x : ℚ) :
    aggregate a x =
      max (min (priceDegree .very_low x) (impliedStrength a .very_low))
        (max (min (priceDegree .low x) (impliedStrength a .low))
          (max (min (priceDegree .medium x) (impliedStrength a .medium))
            (max (min (priceDegree .high x) (impliedStrength a .high))
              (max (min (priceDegree .very_high x) (impliedStrength a .very_high)) 0)))) := rfl

theorem priceDegree_very_low_eq (x : ℚ) : priceDegree .very_low x = gbellmf 44800 3 87200 x := by
  norm_num [priceDegree, priceWidth, priceCenter, PriceConstants.BELL_WIDTHS,
    PriceConstants.BELL_CENTERS, PriceConstants.P00, PriceConstants.P20, BELL_SLOPE]

theorem priceDegree_low_eq (x : ℚ) : priceDegree .low x = gbellmf 14000 3 146000 x := by
  norm_num [priceDegree, priceWidth, priceCenter, PriceConstants.BELL_WIDTHS,
    PriceConstants.BELL_CENTERS, PriceConstants.P20, PriceConstants.P40, BELL_SLOPE]

theorem priceDegree_medium_eq (x : ℚ) : priceDegree .medium x = gbellmf 10000 3 170000 x := by
  norm_num [priceDegree, priceWidth, priceCenter, PriceConstants.BELL_WIDTHS,
    PriceConstants.BELL_CENTERS, PriceConstants.P40, PriceConstants.P60, BELL_SLOPE]

theorem priceDegree_high_eq (x : ℚ) : priceDegree .high x = gbellmf 29300 3 209300 x := by
  norm_num [priceDegree, priceWidth, priceCenter, PriceConstants.BELL_WIDTHS,
    PriceConstants.BELL_CENTERS, PriceConstants.P60, PriceConstants.P80, BELL_SLOPE]

theorem priceDegree_very_high_eq (x : ℚ) : priceDegree .very_high x = gbellmf 80700 3 319300 x := by
  norm_num [priceDegree, priceWidth, priceCenter, PriceConstants.BELL_WIDTHS,
    PriceConstants.BELL_CENTERS, PriceConstants.P80, PriceConstants.P100, BELL_SLOPE]

/-- Reducible mirror of `gbellmf` at slope 3. -/
def qgbell6 (w c x : ℚ) : ℚ := qdiv qone (qadd qone (qpow (qabs (qdiv (qsub x c) w)) 6))

theorem qgbell6_eq (w c x : ℚ) : qgbell6 w c x = gbellmf w 3 c x := by
  rw [qgbell6, qdiv_eq, qadd_eq, qpow_eq, qabs_eq, qdiv_eq, qsub_eq, qone_eq, gbellmf]

/-- Reducible mirror of `aggregate a455`. -/
def qagg455 (x : ℚ) : ℚ :=
  qmax (qmin (qgbell6 (mkRat 44800 1) (mkRat 87200 1) x) (mkRat 117649 12230708113))
    (qmax (qmin (qgbell6 (mkRat 14000 1) (mkRat 146000 1) x) (mkRat 15625 2176797961))
      (qmax (qmin (qgbell6 (mkRat 10000 1) (mkRat 170000 1) x) (mkRat 1 2))
        (qmax (qmin (qgbell6 (mkRat 29300 1) (mkRat 209300 1) x) (mkRat 1 2))
          (qmax (qmin (qgbell6 (mkRat 80700 1) (mkRat 319300 1) x) (mkRat 1 2)) qzero))))

set_option maxHeartbeats 4000000 in
theorem qagg455_eq (x : ℚ) : qagg455 x = aggregate a455 x := by
  rw [aggregate_eq_explicit, strength455_very_low, strength455_low, strength455_medium,
    strength455_high, strength455_very_high, priceDegree_very_low_eq, priceDegree_low_eq,
    priceDegree_medium_eq, priceDegree_high_eq, priceDegree_very_high_eq, qagg455]
  simp only [qmax_eq, qmin_eq, qgbell6_eq, qzero_eq]
  norm_num [Rat.mkRat_eq_div]

/-- Reducible mirror of the price universe grid. -/
def qgrid480 : List ℚ :=
  (List.range 480).map (fun i : ℕ => mkRat (20000 + 1000 * (i : ℤ)) 1)

theorem qgrid480_eq : qgrid480 = priceUniverse := by
  rw [priceUniverse_eq, qgrid480]
  refine List.map_congr_left fun i _ => ?_
  rw [Rat.mkRat_one]
  push_cast
  norm_num [PriceConstants.MIN, PriceConstants.STEP]

/-- The aggregate membership mass of the scenario query, exactly. -/
def qden455 : ℚ := qsum 10 (qgrid480.map qagg455)

/-- The aggregate first moment of the scenario query, exactly. -/
def qnum455 : ℚ := qsum 10 (qgrid480.map (fun x => qmul x (qagg455 x)))

theorem den455_eq : (priceUniverse.map (aggregate a455)).sum = qden455 := by
  have h : qgrid480.map qagg455 = qgrid480.map (aggregate a455) :=
    List.map_congr_left fun x _ => qagg455_eq x
  rw [qden455, qsum_eq, h, qgrid480_eq]

theorem num455_eq : (priceUniverse.map (fun x => x * aggregate a455 x)).sum = qnum455 := by
  have h : qgrid480.map (fun x => qmul x (qagg455 x)) =
      qgrid480.map (fun x => x * aggregate a455 x) :=
    List.map_congr_left fun x _ => by rw [qmul_eq, qagg455_eq]
  rw [qnum455, qsum_eq, h, qgrid480_eq]

set_option maxRecDepth 1000000 in
set_option maxHeartbeats 400000000 in
theorem qbounds455 : (Rat.blt (qmul (mkRat 290252 1) qden455) qnum455 &&
    Rat.blt qnum455 (qmul (mkRat 290253 1) qden455)) = true := by decide

theorem r455_bounds : 290252 < r455 ∧ r455 < 290253 := by
  have h := qbounds455
  rw [Bool.and_eq_true] at h
  obtain ⟨h1, h2⟩ := h
  have hlt1 : qmul (mkRat 290252 1) qden455 < qnum455 := h1
  have hlt2 : qnum455 < qmul (mkRat 290253 1) qden455 := h2
  rw [qmul_eq, Rat.mkRat_one] at hlt1 hlt2
  rw [← den455_eq, ← num455_eq] at hlt1 hlt2
  push_cast at hlt1 hlt2
  have hden : 0 < (priceUniverse.map (aggregate a455)).sum := sum_aggregate_pos a455
  constructor
  · rw [r455, centroid, lt_div_iff₀ hden]
    exact hlt1
  · rw [r455, centroid, div_lt_iff₀ hden]
    exact hlt2


/-! Claim theorems. -/

/-- C2: for every term valuation and every pair of subtrees, fuzzy AND fires at
the minimum of its children's firing strengths and fuzzy OR at the maximum,
including the boundary cases where both children fire at 0 or both at 1. -/
theorem claim_C2_zadeh_semantics {α : Type} (f : α → ℚ) (l r : FuzzyExpr α) :
    (FuzzyExpr.and l r).fire f = min (l.fire f) (r.fire f) ∧
    (FuzzyExpr.or l r).fire f = max (l.fire f) (r.fire f) ∧
    (l.fire f = 0 → r.fire f = 0 →
      (FuzzyExpr.and l r).fire f = 0 ∧ (FuzzyExpr.or l r).fire f = 0) ∧
    (l.fire f = 1 → r.fire f = 1 →
      (FuzzyExpr.and l r).fire f = 1 ∧ (FuzzyExpr.or l r).fire f = 1) := by
  refine ⟨rfl, rfl, fun h0l h0r => ?_, fun h1l h1r => ?_⟩
  · constructor
    · show min (l.fire f) (r.fire f) = 0
      rw [h0l, h0r, min_self]
    · show max (l.fire f) (r.fire f) = 0
      rw [h0l, h0r, max_self]
  · constructor
    · show min (l.fire f) (r.fire f) = 1
      rw [h1l, h1r, min_self]
    · show max (l.fire f) (r.fire f) = 1
      rw [h1l, h1r, max_self]

/-- Witness for C2 at the concrete boundary valuations 0 and 1. -/
theorem claim_C2_witness :
    (FuzzyExpr.and (.term ()) (.term ())).fire (fun _ : Unit => (0 : ℚ)) = 0 ∧
    (FuzzyExpr.or (.term ()) (.term ())).fire (fun _ : Unit => (1 : ℚ)) = 1 :=
  ⟨((claim_C2_zadeh_semantics (fun _ : Unit => (0 : ℚ)) (.term ()) (.term ())).2.2.1
      rfl rfl).1,
   ((claim_C2_zadeh_semantics (fun _ : Unit => (1 : ℚ)) (.term ()) (.term ())).2.2.2
      rfl rfl).2⟩

theorem mem_all (c : PriceCat) : c ∈ PriceCat.all := by
  cases c <;> simp [PriceCat.all]

/-- C3: the aggregate output set is the pointwise max over categories of the
category membership clipped (min) at the category's implied strength, where
the implied strength is the max — never the sum — of the firing strengths of
the rules concluding that category; consequently the aggregate always lies
in [0, 1]. -/
theorem claim_C3_mamdani_aggregation (a : Assignment) (x : ℚ) :
    (∀ c : PriceCat, min (priceDegree c x) (impliedStrength a c) ≤ aggregate a x) ∧
    (∃ c : PriceCat, aggregate a x = min (priceDegree c x) (impliedStrength a c)) ∧
    (∀ (c : PriceCat) (r : Rule), r ∈ get_rules → r.consequent = c →
      r.antecedent.fire (termDegree a) ≤ impliedStrength a c) ∧
    (∀ c : PriceCat, ∃ r : Rule, r ∈ get_rules ∧ r.consequent = c ∧
      impliedStrength a c = r.antecedent.fire (termDegree a)) ∧
    0 ≤ aggregate a x ∧ aggregate a x ≤ 1 := by
  have hfire_nonneg : ∀ rl : Rule, 0 ≤ rl.antecedent.fire (termDegree a) :=
    fun rl => le_of_lt (fire_pos (termDegree_pos a) rl.antecedent)
  refine ⟨?_, ?_, ?_, ?_, aggregate_nonneg a x, aggregate_le_one a x⟩
  · intro c
    exact le_foldr_max 0 (List.mem_map.mpr ⟨c, mem_all c, rfl⟩)
  · have hne : PriceCat.all.map (fun c => min (priceDegree c x) (impliedStrength a c)) ≠ [] := by
      simp [PriceCat.all]
    have hbase : ∀ y ∈ PriceCat.all.map (fun c => min (priceDegree c x) (impliedStrength a c)),
        (0 : ℚ) ≤ y := by
      intro y hy
      rcases List.mem_map.mp hy with ⟨c, _, rfl⟩
      exact le_min (le_of_lt (gbellmf_pos ..)) (impliedStrength_nonneg a c)
    rcases List.mem_map.mp (foldr_max_mem hne hbase) with ⟨c, _, hc⟩
    exact ⟨c, hc.symm⟩
  · intro c rl hmem hcons
    refine le_foldr_max 0 (List.mem_map.mpr ⟨rl, List.mem_filter.mpr ⟨hmem, ?_⟩, rfl⟩)
    simp [hcons]
  · intro c
    cases c
    case very_low =>
      refine ⟨get_rules.get ⟨0, by decide⟩, List.get_mem _ _ _, rfl, ?_⟩
      rw [implied_very_low_eq]
      exact max_eq_left (hfire_nonneg _)
    case low =>
      refine ⟨get_rules.get ⟨1, by decide⟩, List.get_mem _ _ _, rfl, ?_⟩
      rw [implied_low_eq]
      exact max_eq_left (hfire_nonneg _)
    case medium =>
      refine ⟨get_rules.get ⟨2, by decide⟩, List.get_mem _ _ _, rfl, ?_⟩
      rw [implied_medium_eq]
      exact max_eq_left (hfire_nonneg _)
    case high =>
      refine ⟨get_rules.get ⟨3, by decide⟩, List.get_mem _ _ _, rfl, ?_⟩
      rw [implied_high_eq]
      exact max_eq_left (hfire_nonneg _)
    case very_high =>
      refine ⟨get_rules.get ⟨4, by decide⟩, List.get_mem _ _ _, rfl, ?_⟩
      rw [implied_very_high_eq]
      exact max_eq_left (hfire_nonneg _)

/-- Witness for C3 at the scenario query, the grid point 240000 and the
`very_high` category concluded by the fifth rule. -/
theorem claim_C3_witness :
    min (priceDegree .very_high 240000) (impliedStrength a455 .very_high) ≤
      aggregate a455 240000 ∧
    (get_rules.get ⟨4, by decide⟩).antecedent.fire (termDegree a455) ≤
      impliedStrength a455 .very_high :=
  ⟨(claim_C3_mamdani_aggregation a455 240000).1 .very_high,
   (claim_C3_mamdani_aggregation a455 240000).2.2.1 .very_high _ (List.get_mem _ _ _) rfl⟩

/-- C4: whenever the aggregate has nonzero total membership, defuzzification
returns exactly the discrete centroid `Σ x*agg(x) / Σ agg(x)` over the price
grid; and the centroid of a single unclipped bell membership function over a
symmetric (wide-enough) universe is within one grid step of its center. -/
theorem claim_C4_centroid_defuzzification :
    (∀ a : Assignment, (priceUniverse.map (aggregate a)).sum ≠ 0 →
      defuzzify a = .ok ((priceUniverse.map (fun x => x * aggregate a x)).sum /
        (priceUniverse.map (aggregate a)).sum)) ∧
    (∀ (w : ℚ) (sl : ℕ) (c st : ℚ) (n : ℕ), 0 < st →
      |centroid (symmetricUniverse c st n) (gbellmf w sl c) - c| ≤ st) := by
  constructor
  · intro a _
    exact defuzzify_ok a
  · intro w sl c st n hst
    have hne : symmetricUniverse c st n ≠ [] := by
      unfold symmetricUniverse
      intro h
      have h1 := congrArg List.length h
      simp at h1
    have hden : ((symmetricUniverse c st n).map (gbellmf w sl c)).sum ≠ 0 := by
      refine ne_of_gt (List.sum_pos _ (fun y hy => ?_) ?_)
      · rcases List.mem_map.mp hy with ⟨z, _, rfl⟩
        exact gbellmf_pos ..
      · simp [hne]
    rw [centroid_symmetric (fun d => gbellmf_symm w sl c d) hden]
    simp only [sub_self, abs_zero]
    exact le_of_lt hst

/-- Witness for C4: the scenario query's defuzzification, and a symmetric
three-point universe around the center 0. -/
theorem claim_C4_witness :
    defuzzify a455 = .ok ((priceUniverse.map (fun x => x * aggregate a455 x)).sum /
      (priceUniverse.map (aggregate a455)).sum) ∧
    |centroid (symmetricUniverse 0 1 1) (gbellmf 1 3 0) - 0| ≤ 1 :=
  ⟨claim_C4_centroid_defuzzification.1 a455 (ne_of_gt (sum_aggregate_pos a455)),
   claim_C4_centroid_defuzzification.2 1 3 0 1 1 (by norm_num)⟩

/-- C5: a query fails with `DegenerateAggregate` if and only if every rule
fires at exactly 0 — and for this model neither side ever occurs, because a
generalized bell membership value is strictly positive everywhere; on an
`Except.error` no crisp number is carried. -/
theorem claim_C5_degenerate_iff_all_zero (a : Assignment) :
    (defuzzify a = .error .degenerateAggregate ↔
      ∀ r ∈ get_rules, r.antecedent.fire (termDegree a) = 0) ∧
    defuzzify a ≠ .error .degenerateAggregate := by
  have hok := defuzzify_ok a
  have hne : defuzzify a ≠ .error .degenerateAggregate := by
    rw [hok]
    simp
  refine ⟨⟨fun h => absurd h hne, fun hall => ?_⟩, hne⟩
  exfalso
  have h5 := hall (get_rules.get ⟨4, by decide⟩) (List.get_mem _ _ _)
  exact absurd h5 (ne_of_gt (fire_pos (termDegree_pos a) _))

/-- Witness for C5 at the scenario query. -/
theorem claim_C5_witness : defuzzify a455 ≠ .error .degenerateAggregate :=
  (claim_C5_degenerate_iff_all_zero a455).2

/-- C6: every membership function of the model is the generalized bell
`1/(1 + |(x-center)/width|^(2*slope))`, and for positive width and slope the
bell evaluates to 1 at its center and is symmetric about it. -/
theorem claim_C6_bell_center_symmetry :
    (∀ (c : AreaCat) (x : ℚ), areaDegree c x =
      1 / (1 + |(x - areaCenter c) / areaWidth c| ^ (2 * BELL_SLOPE))) ∧
    (∀ (c : DistCat) (x : ℚ), distAveDegree c x =
      1 / (1 + |(x - distAveCenter c) / distAveWidth c| ^ (2 * BELL_SLOPE))) ∧
    (∀ (c : DistCat) (x : ℚ), distBchDegree c x =
      1 / (1 + |(x - distBchCenter c) / distBchWidth c| ^ (2 * BELL_SLOPE))) ∧
    (∀ (c : PriceCat) (x : ℚ), priceDegree c x =
      1 / (1 + |(x - priceCenter c) / priceWidth c| ^ (2 * BELL_SLOPE))) ∧
    (∀ (w : ℚ) (s : ℕ) (c : ℚ), 0 < w → 0 < s →
      gbellmf w s c c = 1 ∧ ∀ d : ℚ, gbellmf w s c (c + d) = gbellmf w s c (c - d)) :=
  ⟨fun _ _ => rfl, fun _ _ => rfl, fun _ _ => rfl, fun _ _ => rfl,
   fun w s c _ hs => ⟨gbellmf_center w s c hs.ne', fun d => gbellmf_symm w s c d⟩⟩

/-- Witness for C6 at width 1, slope 3, center 0, offset 2. -/
theorem claim_C6_witness :
    gbellmf 1 3 0 0 = 1 ∧ gbellmf 1 3 0 (0 + 2) = gbellmf 1 3 0 (0 - 2) := by
  have h := claim_C6_bell_center_symmetry.2.2.2.2 1 3 0 (by norm_num) (by norm_num)
  exact ⟨h.1, h.2 2⟩

/-- C7: constructing a membership function with width 0 or slope 0 fails with
`InvalidParameter` at build time (no partially built function is returned),
and with nonzero parameters construction succeeds and evaluation is the total
bell function. -/
theorem claim_C7_invalid_parameter (w : ℚ) (s : ℕ) (c : ℚ) :
    ((w = 0 ∨ s = 0) → mkMembershipFunction w s c = .error .invalidParameter) ∧
    (w ≠ 0 → s ≠ 0 → mkMembershipFunction w s c = .ok (gbellmf w s c)) := by
  constructor
  · intro h
    rw [mkMembershipFunction, if_pos h]
  · intro hw hs
    rw [mkMembershipFunction, if_neg (by tauto)]

/-- Witness for C7 at width 0 (failure) and at the model's first area bell
parameters (success). -/
theorem claim_C7_witness :
    mkMembershipFunction 0 BELL_SLOPE 215 = .error .invalidParameter ∧
    mkMembershipFunction 35 BELL_SLOPE 215 = .ok (gbellmf 35 BELL_SLOPE 215) :=
  ⟨(claim_C7_invalid_parameter 0 BELL_SLOPE 215).1 (Or.inl rfl),
   (claim_C7_invalid_parameter 35 BELL_SLOPE 215).2 (by norm_num)
     (by norm_num [BELL_SLOPE])⟩

/-- C8: evaluating the same model twice with the same assignment through the
shared, state-holding simulation object returns the identical crisp result:
the second run reproduces the first run's output and state, and the result
only depends on the assignment. -/
theorem claim_C8_idempotent_reevaluation (sim : ControlSystemSimulation)
    (area dist_ave dist_bch : ℚ) :
    (run (run sim area dist_ave dist_bch).2 area dist_ave dist_bch).1 =
      (run sim area dist_ave dist_bch).1 ∧
    (run (run sim area dist_ave dist_bch).2 area dist_ave dist_bch).2 =
      (run sim area dist_ave dist_bch).2 ∧
    (run sim area dist_ave dist_bch).1 = defuzzify ⟨area, dist_ave, dist_bch⟩ :=
  ⟨rfl, rfl, rfl⟩

/-- C9: every category's membership degree at either of its two delimiting
breakpoints is exactly 1/2 in exact arithmetic (never 1), since each bell
center is the midpoint of the two breakpoints and its width half their span. -/
theorem claim_C9_breakpoint_membership_half :
    areaDegree .very_small AreaConstants.P00 = 1 / 2 ∧
    areaDegree .very_small AreaConstants.P20 = 1 / 2 ∧
    areaDegree .small AreaConstants.P20 = 1 / 2 ∧
    areaDegree .small AreaConstants.P40 = 1 / 2 ∧
    areaDegree .medium AreaConstants.P40 = 1 / 2 ∧
    areaDegree .medium AreaConstants.P60 = 1 / 2 ∧
    areaDegree .large AreaConstants.P60 = 1 / 2 ∧
    areaDegree .large AreaConstants.P80 = 1 / 2 ∧
    areaDegree .very_large AreaConstants.P80 = 1 / 2 ∧
    areaDegree .very_large AreaConstants.P100 = 1 / 2 ∧
    priceDegree .very_low PriceConstants.P00 = 1 / 2 ∧
    priceDegree .very_low PriceConstants.P20 = 1 / 2 ∧
    priceDegree .low PriceConstants.P20 = 1 / 2 ∧
    priceDegree .low PriceConstants.P40 = 1 / 2 ∧
    priceDegree .medium PriceConstants.P40 = 1 / 2 ∧
    priceDegree .medium PriceConstants.P60 = 1 / 2 ∧
    priceDegree .high PriceConstants.P60 = 1 / 2 ∧
    priceDegree .high PriceConstants.P80 = 1 / 2 ∧
    priceDegree .very_high PriceConstants.P80 = 1 / 2 ∧
    priceDegree .very_high PriceConstants.P100 = 1 / 2 ∧
    distAveDegree .close DistAveConstants.P00 = 1 / 2 ∧
    distAveDegree .close DistAveConstants.P33 = 1 / 2 ∧
    distAveDegree .moderate DistAveConstants.P33 = 1 / 2 ∧
    distAveDegree .moderate DistAveConstants.P66 = 1 / 2 ∧
    distAveDegree .far DistAveConstants.P66 = 1 / 2 ∧
    distAveDegree .far DistAveConstants.P100 = 1 / 2 ∧
    distBchDegree .close DistBchConstants.P00 = 1 / 2 ∧
    distBchDegree .close DistBchConstants.P33 = 1 / 2 ∧
    distBchDegree .moderate DistBchConstants.P33 = 1 / 2 ∧
    distBchDegree .moderate DistBchConstants.P66 = 1 / 2 ∧
    distBchDegree .far DistBchConstants.P66 = 1 / 2 ∧
    distBchDegree .far DistBchConstants.P100 = 1 / 2 ∧
    (1 : ℚ) / 2 ≠ 1 := by
  norm_num [areaDegree, priceDegree, distAveDegree, distBchDegree, areaWidth, areaCenter,
    priceWidth, priceCenter, distAveWidth, distAveCenter, distBchWidth, distBchCenter,
    AreaConstants.BELL_WIDTHS, AreaConstants.BELL_CENTERS, PriceConstants.BELL_WIDTHS,
    PriceConstants.BELL_CENTERS, DistAveConstants.BELL_WIDTHS, DistAveConstants.BELL_CENTERS,
    DistBchConstants.BELL_WIDTHS, DistBchConstants.BELL_CENTERS,
    AreaConstants.P00, AreaConstants.P20, AreaConstants.P40, AreaConstants.P60,
    AreaConstants.P80, AreaConstants.P100, PriceConstants.P00, PriceConstants.P20,
    PriceConstants.P40, PriceConstants.P60, PriceConstants.P80, PriceConstants.P100,
    DistAveConstants.P00, DistAveConstants.P33, DistAveConstants.P66, DistAveConstants.P100,
    DistBchConstants.P00, DistBchConstants.P33, DistBchConstants.P66, DistBchConstants.P100,
    gbellmf_eval, BELL_SLOPE]

/-- C10: every universe grid runs from MIN inclusive to MAX exclusive in STEP
increments, so the declared MAX is never a grid point; and every successfully
defuzzified price lies in [MIN, MAX - STEP] = [20000, 499000]. -/
theorem claim_C10_grid_and_range :
    AreaConstants.MAX ∉ areaUniverse ∧
    DistAveConstants.MAX ∉ distAveUniverse ∧
    DistBchConstants.MAX ∉ distBchUniverse ∧
    PriceConstants.MAX ∉ priceUniverse ∧
    (∀ (a : Assignment) (rq : ℚ), defuzzify a = .ok rq →
      PriceConstants.MIN ≤ rq ∧ rq ≤ PriceConstants.MAX - PriceConstants.STEP) := by
  refine ⟨?_, ?_, ?_, ?_, ?_⟩
  · rw [areaUniverse_eq]
    intro h
    rcases List.mem_map.mp h with ⟨i, hi, heq⟩
    rw [List.mem_range] at hi
    norm_num [AreaConstants.MIN, AreaConstants.STEP, AreaConstants.MAX] at heq
    have hiq : (i : ℚ) = 400 := by linarith
    have : i = 400 := by exact_mod_cast hiq
    omega
  · rw [distAveUniverse_eq]
    intro h
    rcases List.mem_map.mp h with ⟨i, hi, heq⟩
    rw [List.mem_range] at hi
    norm_num [DistAveConstants.MIN, DistAveConstants.STEP, DistAveConstants.MAX] at heq
    have : (i : ℚ) = 98 := by linarith
    have : i = 98 := by exact_mod_cast this
    omega
  · rw [distBchUniverse_eq]
    intro h
    rcases List.mem_map.mp h with ⟨i, hi, heq⟩
    rw [List.mem_range] at hi
    norm_num [DistBchConstants.MIN, DistBchConstants.STEP, DistBchConstants.MAX] at heq
    have : (i : ℚ) = 136 := by linarith
    have : i = 136 := by exact_mod_cast this
    omega
  · rw [priceUniverse_eq]
    intro h
    rcases List.mem_map.mp h with ⟨i, hi, heq⟩
    rw [List.mem_range] at hi
    norm_num [PriceConstants.MIN, PriceConstants.STEP, PriceConstants.MAX] at heq
    have hiq : (i : ℚ) = 480 := by linarith
    have : i = 480 := by exact_mod_cast hiq
    omega
  · intro a rq h
    rw [defuzzify_ok a] at h
    have hr : centroid priceUniverse (aggregate a) = rq := by
      exact Except.ok.inj h
    subst hr
    have hden := sum_aggregate_pos a
    have hup : (priceUniverse.map (fun x => x * aggregate a x)).sum ≤
        (PriceConstants.MAX - PriceConstants.STEP) * (priceUniverse.map (aggregate a)).sum := by
      have h1 : ∀ x ∈ priceUniverse, x * aggregate a x ≤
          (PriceConstants.MAX - PriceConstants.STEP) * aggregate a x := fun x hx =>
        mul_le_mul_of_nonneg_right (mem_priceUniverse_bounds hx).2 (aggregate_nonneg a x)
      calc (priceUniverse.map (fun x => x * aggregate a x)).sum
          ≤ (priceUniverse.map (fun x =>
              (PriceConstants.MAX - PriceConstants.STEP) * aggregate a x)).sum :=
            List.sum_le_sum h1
        _ = (PriceConstants.MAX - PriceConstants.STEP) *
              (priceUniverse.map (aggregate a)).sum :=
            List.sum_map_mul_left ..
    have hlo : PriceConstants.MIN * (priceUniverse.map (aggregate a)).sum ≤
        (priceUniverse.map (fun x => x * aggregate a x)).sum := by
      have h1 : ∀ x ∈ priceUniverse, PriceConstants.MIN * aggregate a x ≤
          x * aggregate a x := fun x hx =>
        mul_le_mul_of_nonneg_right (mem_priceUniverse_bounds hx).1 (aggregate_nonneg a x)
      calc PriceConstants.MIN * (priceUniverse.map (aggregate a)).sum
          = (priceUniverse.map (fun x => PriceConstants.MIN * aggregate a x)).sum :=
            (List.sum_map_mul_left ..).symm
        _ ≤ (priceUniverse.map (fun x => x * aggregate a x)).sum := List.sum_le_sum h1
    constructor
    · rw [centroid, le_div_iff₀ hden]
      exact hlo
    · rw [centroid, div_le_iff₀ hden]
      exact hup

/-- Witness for C10: the scenario query defuzzifies inside [20000, 499000]. -/
theorem claim_C10_witness :
    ∃ rq : ℚ, defuzzify a455 = .ok rq ∧
      PriceConstants.MIN ≤ rq ∧ rq ≤ PriceConstants.MAX - PriceConstants.STEP :=
  ⟨centroid priceUniverse (aggregate a455), defuzzify_ok a455,
   (claim_C10_grid_and_range.2.2.2.2 a455 _ (defuzzify_ok a455)).1,
   (claim_C10_grid_and_range.2.2.2.2 a455 _ (defuzzify_ok a455)).2⟩

/-- C1 counterexample: at the query (455, 0.78, 0.30) the fifth rule's
antecedent does not fire at strength 1 (it fires at 1/2, because each extreme
breakpoint sits exactly one bell width from its category center), and the
crisp defuzzified price is not within one grid step of the very_high bell
center `P80 + (P100 - P80)/2 = 319300`. -/
theorem claim_C1_counterexample :
    (get_rules.get ⟨4, by decide⟩).antecedent.fire (termDegree a455) ≠ 1 ∧
    defuzzify a455 = .ok r455 ∧
    ¬ |r455 - (PriceConstants.P80 + (PriceConstants.P100 - PriceConstants.P80) / 2)| ≤
        PriceConstants.STEP := by
  have hb := r455_bounds
  refine ⟨?_, defuzzify_ok a455, ?_⟩
  · rw [rule5_fire_half]
    norm_num
  · intro hcon
    norm_num [PriceConstants.P80, PriceConstants.P100, PriceConstants.STEP] at hcon
    rw [abs_le] at hcon
    have h1 := hcon.1
    linarith [hb.2]

/-- C1 amended: at the query (455, 0.78, 0.30) the fifth rule's antecedent
fires at strength exactly 1/2 and concludes very_high at implied strength 1/2
(the medium and high rules also fire at 1/2), and the crisp defuzzified price
lies strictly between 290252 and 290253 — about R$ 29000 below the very_high
bell center 319300. -/
theorem claim_C1_amended :
    (get_rules.get ⟨4, by decide⟩).antecedent.fire (termDegree a455) = 1 / 2 ∧
    impliedStrength a455 .very_high = 1 / 2 ∧
    impliedStrength a455 .medium = 1 / 2 ∧
    impliedStrength a455 .high = 1 / 2 ∧
    defuzzify a455 = .ok r455 ∧
    290252 < r455 ∧ r455 < 290253 :=
  ⟨rule5_fire_half, strength455_very_high, strength455_medium, strength455_high,
   defuzzify_ok a455, r455_bounds.1, r455_bounds.2⟩

end LandPricing
